/-
Verification of the entity-resolution and incremental-ingestion layer of the
soccer_analysis_model repository.

The Python sources are shallowly embedded as Lean definitions:
  - `normalize_name`, `similarity_score`, `TEAM_NAME_MAP`, `find_matching_team`,
    `find_matching_player`, `link_whoscored_to_understat_players` model
    src/scrapers/data_merge.py;
  - the `_get_or_create_*` functions and the placeholder-identifier allocation
    model src/scrapers/understat_scraper.py and src/scrapers/whoscored_scraper.py;
  - `_safe_int` / `_safe_float` model the WhoScored numeric conversion helpers;
  - `drop_duplicates` together with the sortedness predicate models the
    pandas `sort_values('tackles', ascending=False).drop_duplicates(...)`
    pipeline of src/export_for_ml.py.

Database tables are modelled as Lean lists in insertion order; SQLAlchemy's
`.first()` is `List.find?`.  Python floats are modelled as exact rationals
(`ℚ`); the comparisons appearing in the claims are far from any
floating-point rounding boundary.
-/
import Mathlib

set_option maxRecDepth 4000

namespace SoccerModel

/-! ### Name normalization (data_merge.normalize_name)

Python: `unicodedata.normalize('NFKD', name).encode('ASCII','ignore')
.decode('ASCII').lower().strip()`.  The NFKD step is embedded as a per-character
decomposition table covering the character repertoire that occurs in the
repository's alias map and in the names considered here ('ü', 'é', 'ö' decompose
into a base letter plus a combining mark); every other character is its own NFKD
form (true in particular for ASCII and for Cyrillic letters, which the
subsequent ASCII step then drops). -/

/-- Combining diaeresis U+0308. -/
def combDiaeresis : Char := Char.ofNat 0x308

/-- Combining acute accent U+0301. -/
def combAcute : Char := Char.ofNat 0x301

/-- NFKD decomposition of one character (table for the characters used). -/
def nfkdChar (c : Char) : List Char :=
  if c = 'ü' then ['u', combDiaeresis]
  else if c = 'é' then ['e', combAcute]
  else if c = 'ö' then ['o', combDiaeresis]
  else [c]

/-- Model of `bytes.encode('ASCII', 'ignore')`: keep only code points < 128. -/
def asciiOnly (cs : List Char) : List Char :=
  cs.filter (fun c => c.toNat < 128)

/-- ASCII lower-casing of one character.  This is exactly SQLite's LOWER (used
on the stored side of the exact-match queries) and agrees with Python's
`str.lower` on ASCII and on characters that have no upper-case form or are
already lower case — which covers every name compared in this development. -/
def asciiLowerChar (c : Char) : Char :=
  if 'A' ≤ c ∧ c ≤ 'Z' then Char.ofNat (c.toNat + 32) else c

/-- ASCII lower-casing of a string. -/
def asciiLower (s : String) : String :=
  String.mk (s.toList.map asciiLowerChar)

/-- Whitespace as stripped by Python's `str.strip` (the ASCII cases; after the
ASCII filter no other whitespace can remain). -/
def isSpaceChar (c : Char) : Bool :=
  c = ' ' ∨ c = '\t' ∨ c = '\n' ∨ c = '\r'

/-- Strip leading and trailing whitespace from a character list. -/
def stripChars (cs : List Char) : List Char :=
  ((cs.dropWhile isSpaceChar).reverse.dropWhile isSpaceChar).reverse

/-- Model of `data_merge.normalize_name`: NFKD-decompose, drop non-ASCII,
lower-case, strip surrounding whitespace; empty input yields the empty key. -/
def normalize_name (name : String) : String :=
  if name = "" then ""
  else String.mk (stripChars ((asciiOnly (name.toList.flatMap nfkdChar)).map asciiLowerChar))

/-! ### difflib.SequenceMatcher (used by data_merge.similarity_score)

`SequenceMatcher(None, a, b)` has no caller-supplied junk, but keeps the
default `autojunk=True`: when `len(b) >= 200`, every character occurring more
than `len(b)//100 + 1` times in `b` is "popular" and purged from the index
`b2j`, so the block-finding DP cannot anchor a match on it.  Popular
characters are recorded in `bpopular`, NOT in `bjunk`; with `isjunk=None` the
junk set `bjunk` stays empty.  `find_longest_match` therefore:
  1. finds, over start pairs `(i, j)`, the longest run of matching characters
     all of whose `b`-side characters are non-popular — maximal length, ties
     broken by smallest `i`, then smallest `j` (the scan order of the DP);
  2. extends that block backward and forward while characters are equal: the
     "non-junk" extension condition `not isbjunk(...)` is vacuously true
     because `bjunk` is empty, so the extension runs through popular
     characters as well, and the subsequent junk-extension loops never fire.
`get_matching_blocks` recurses on the pieces left and right of the extended
block, reusing the popularity table computed once from the whole of `b`
(threaded below as the parameter `pop`), and `ratio` is
`2*M/(len a + len b)` with `M` the total size of the blocks (`1.0` when both
strings are empty, difflib's `_calculate_ratio`).  This model was checked
against CPython's difflib on randomized short inputs, on inputs straddling the
200-character autojunk limit with skewed alphabets, and on identical long
inputs. -/

/-- The autojunk popularity test of `SequenceMatcher.__chain_b` relative to
the full second sequence `b`: active only when `200 ≤ len b`, and then a
character is popular iff it occurs more than `len b / 100 + 1` times. -/
def isPopularIn (b : List Char) (c : Char) : Bool :=
  decide (200 ≤ b.length) && decide (b.length / 100 + 1 < b.count c)

/-- Length of the longest common prefix of two character lists. -/
def cpl : List Char → List Char → Nat
  | c :: cs, d :: ds => if c = d then cpl cs ds + 1 else 0
  | _, _ => 0

/-- Length of the longest common prefix whose `b`-side (second list)
characters are all non-popular — the runs visible to the `b2j`-based DP. -/
def cplNP (pop : Char → Bool) : List Char → List Char → Nat
  | c :: cs, d :: ds => if c = d ∧ pop d = false then cplNP pop cs ds + 1 else 0
  | _, _ => 0

/-- One candidate of the DP scan: replace the best block exactly when the
non-popular run starting at `(i, j)` is strictly longer. -/
def flmInner (pop : Char → Bool) (a b : List Char) (i : Nat)
    (acc : Nat × Nat × Nat) (j : Nat) : Nat × Nat × Nat :=
  if acc.2.2 < cplNP pop (a.drop i) (b.drop j) then (i, j, cplNP pop (a.drop i) (b.drop j))
  else acc

/-- Inner scan of `flmDP`: for a fixed start `i` in `a`, try every start `j`
in `b`, keeping the triple with the strictly largest non-popular run
length. -/
def flmStep (pop : Char → Bool) (a b : List Char) (best : Nat × Nat × Nat)
    (i : Nat) : Nat × Nat × Nat :=
  (List.range b.length).foldl (flmInner pop a b i) best

/-- The DP phase of `find_longest_match`: the longest matching block that the
popular-purged index can see — maximal `k`, ties broken by smallest `i`, then
smallest `j`; `(0,0,0)` when it sees no match. -/
def flmDP (pop : Char → Bool) (a b : List Char) : Nat × Nat × Nat :=
  (List.range a.length).foldl (flmStep pop a b) (0, 0, 0)

/-- `find_longest_match`: the DP block, extended backward over the common
suffix of the prefixes and forward over the common prefix of the suffixes
(character equality only — the junk set is empty, see the section
comment). -/
def flm (pop : Char → Bool) (a b : List Char) : Nat × Nat × Nat :=
  match flmDP pop a b with
  | (i, j, k) =>
    let back := cpl ((a.take i).reverse) ((b.take j).reverse)
    let fwd := cpl (a.drop (i + k)) (b.drop (j + k))
    (i - back, j - back, k + back + fwd)

theorem cpl_le_left : ∀ xs ys : List Char, cpl xs ys ≤ xs.length := by
  intro xs
  induction xs with
  | nil => intro ys; cases ys <;> simp [cpl]
  | cons c cs ih =>
    intro ys
    cases ys with
    | nil => simp [cpl]
    | cons d ds =>
      by_cases h : c = d <;> simp [cpl, h]
      exact ih ds

theorem cpl_le_right : ∀ xs ys : List Char, cpl xs ys ≤ ys.length := by
  intro xs
  induction xs with
  | nil => intro ys; cases ys <;> simp [cpl]
  | cons c cs ih =>
    intro ys
    cases ys with
    | nil => simp [cpl]
    | cons d ds =>
      by_cases h : c = d <;> simp [cpl, h]
      exact ih ds

theorem cpl_self : ∀ xs : List Char, cpl xs xs = xs.length := by
  intro xs
  induction xs with
  | nil => simp [cpl]
  | cons c cs ih => simp [cpl, ih]

theorem cplNP_le_left (pop : Char → Bool) :
    ∀ xs ys : List Char, cplNP pop xs ys ≤ xs.length := by
  intro xs
  induction xs with
  | nil => intro ys; cases ys <;> simp [cplNP]
  | cons c cs ih =>
    intro ys
    cases ys with
    | nil => simp [cplNP]
    | cons d ds =>
      by_cases h : c = d ∧ pop d = false <;> simp [cplNP, h]
      exact ih ds

theorem cplNP_le_right (pop : Char → Bool) :
    ∀ xs ys : List Char, cplNP pop xs ys ≤ ys.length := by
  intro xs
  induction xs with
  | nil => intro ys; cases ys <;> simp [cplNP]
  | cons c cs ih =>
    intro ys
    cases ys with
    | nil => simp [cplNP]
    | cons d ds =>
      by_cases h : c = d ∧ pop d = false <;> simp [cplNP, h]
      exact ih ds

/-- A predicate preserved by every step of a left fold holds of the result. -/
theorem foldlInv {σ β : Type} (P : σ → Prop) (f : σ → β → σ)
    (step : ∀ s x, P s → P (f s x)) :
    ∀ (l : List β) (s : σ), P s → P (l.foldl f s) := by
  intro l
  induction l with
  | nil => intro s h; simpa using h
  | cons x xs ih => intro s h; simpa using ih (f s x) (step s x h)

/-- The block found by the DP phase lies inside both lists. -/
theorem flmDP_bounds (pop : Char → Bool) (a b : List Char) :
    (flmDP pop a b).1 + (flmDP pop a b).2.2 ≤ a.length ∧
    (flmDP pop a b).2.1 + (flmDP pop a b).2.2 ≤ b.length := by
  have main :
      ∀ (l : List Nat) (s : Nat × Nat × Nat),
        s.1 + s.2.2 ≤ a.length ∧ s.2.1 + s.2.2 ≤ b.length →
        (l.foldl (flmStep pop a b) s).1 + (l.foldl (flmStep pop a b) s).2.2 ≤ a.length ∧
        (l.foldl (flmStep pop a b) s).2.1 + (l.foldl (flmStep pop a b) s).2.2 ≤ b.length := by
    intro l
    refine foldlInv (fun s => s.1 + s.2.2 ≤ a.length ∧ s.2.1 + s.2.2 ≤ b.length)
      (flmStep pop a b) ?_ l
    intro s i hs
    unfold flmStep
    refine foldlInv (fun s => s.1 + s.2.2 ≤ a.length ∧ s.2.1 + s.2.2 ≤ b.length)
      _ ?_ (List.range b.length) s hs
    intro t j ht
    unfold flmInner
    by_cases h : t.2.2 < cplNP pop (a.drop i) (b.drop j)
    · have ha : cplNP pop (a.drop i) (b.drop j) ≤ a.length - i := by
        have := cplNP_le_left pop (a.drop i) (b.drop j)
        simpa using this
      have hb : cplNP pop (a.drop i) (b.drop j) ≤ b.length - j := by
        have := cplNP_le_right pop (a.drop i) (b.drop j)
        simpa using this
      simp only [h, if_pos]
      constructor <;> omega
    · simpa [h] using ht
  exact main (List.range a.length) (0, 0, 0) (by simp)

/-- The extended block returned by `flm` still lies inside both lists. -/
theorem flm_bounds (pop : Char → Bool) (a b : List Char) :
    (flm pop a b).1 + (flm pop a b).2.2 ≤ a.length ∧
    (flm pop a b).2.1 + (flm pop a b).2.2 ≤ b.length := by
  have hdp := flmDP_bounds pop a b
  rcases hf : flmDP pop a b with ⟨i, j, k⟩
  rw [hf] at hdp
  simp only at hdp
  have hback1 : cpl ((a.take i).reverse) ((b.take j).reverse) ≤ i := by
    have h := cpl_le_left ((a.take i).reverse) ((b.take j).reverse)
    rw [List.length_reverse, List.length_take] at h
    omega
  have hback2 : cpl ((a.take i).reverse) ((b.take j).reverse) ≤ j := by
    have h := cpl_le_right ((a.take i).reverse) ((b.take j).reverse)
    rw [List.length_reverse, List.length_take] at h
    omega
  have hfwd1 : cpl (a.drop (i + k)) (b.drop (j + k)) ≤ a.length - (i + k) := by
    have h := cpl_le_left (a.drop (i + k)) (b.drop (j + k))
    rwa [List.length_drop] at h
  have hfwd2 : cpl (a.drop (i + k)) (b.drop (j + k)) ≤ b.length - (j + k) := by
    have h := cpl_le_right (a.drop (i + k)) (b.drop (j + k))
    rwa [List.length_drop] at h
  simp only [flm, hf]
  constructor <;> omega

/-- Total size of the matching blocks, computed with explicit fuel (the fuel
only has to dominate the recursion depth; see `matchTotalF_fuel`). -/
def matchTotalF (pop : Char → Bool) : Nat → List Char → List Char → Nat
  | 0, _, _ => 0
  | fuel + 1, a, b =>
    match flm pop a b with
    | (i, j, k) =>
      if k = 0 then 0
      else
        matchTotalF pop fuel (a.take i) (b.take j) + k +
          matchTotalF pop fuel (a.drop (i + k)) (b.drop (j + k))

/-- Total size `M` of the matching blocks of `get_matching_blocks`, for the
popularity table `pop` (computed from the full second string at top level). -/
def matchTotal (pop : Char → Bool) (a b : List Char) : Nat :=
  matchTotalF pop (a.length + b.length) a b

/-- `matchTotalF` never exceeds the length of either input. -/
theorem matchTotalF_le (pop : Char → Bool) (fuel : Nat) :
    ∀ a b : List Char,
      matchTotalF pop fuel a b ≤ a.length ∧ matchTotalF pop fuel a b ≤ b.length := by
  induction fuel with
  | zero => intro a b; simp [matchTotalF]
  | succ n ih =>
    intro a b
    have hb := flm_bounds pop a b
    rcases hf : flm pop a b with ⟨i, j, k⟩
    rw [hf] at hb
    simp only [matchTotalF, hf]
    by_cases h : k = 0
    · simp [h]
    · rw [if_neg h]
      have h1 := ih (a.take i) (b.take j)
      have h2 := ih (a.drop (i + k)) (b.drop (j + k))
      rw [List.length_take, List.length_take] at h1
      rw [List.length_drop, List.length_drop] at h2
      simp only at hb
      constructor <;> omega

/-- The result of `matchTotalF` is independent of the fuel as soon as the fuel
dominates the total input length, so `matchTotal` computes the true block sum. -/
theorem matchTotalF_fuel (pop : Char → Bool) :
    ∀ (n f g : Nat) (a b : List Char), a.length + b.length ≤ n → n ≤ f → n ≤ g →
      matchTotalF pop f a b = matchTotalF pop g a b := by
  intro n
  induction n with
  | zero =>
    intro f g a b hlen _ _
    have ha : a = [] := by cases a <;> simp_all
    have hb : b = [] := by cases b <;> simp_all
    subst ha; subst hb
    cases f <;> cases g <;> simp [matchTotalF, flm, flmDP, cpl]
  | succ m ih =>
    intro f g a b hlen hf hg
    cases f with
    | zero => omega
    | succ f' =>
      cases g with
      | zero => omega
      | succ g' =>
        have hb := flm_bounds pop a b
        rcases hfm : flm pop a b with ⟨i, j, k⟩
        rw [hfm] at hb
        simp only at hb
        simp only [matchTotalF, hfm]
        by_cases h : k = 0
        · simp [h]
        · rw [if_neg h, if_neg h]
          have hk : 1 ≤ k := Nat.one_le_iff_ne_zero.mpr h
          have e1 := ih f' g' (a.take i) (b.take j)
            (by rw [List.length_take, List.length_take]; omega) (by omega) (by omega)
          have e2 := ih f' g' (a.drop (i + k)) (b.drop (j + k))
            (by rw [List.length_drop, List.length_drop]; omega) (by omega) (by omega)
          omega

/-- Model of `SequenceMatcher.ratio`: `2*M/(len a + len b)`, and `1` when both
inputs are empty (difflib's `_calculate_ratio`).  The popularity table is
computed from the full second input, as in `__chain_b`.  Stated with `mkRat`,
which builds the same rational as the division (`Rat.mkRat_eq_div`). -/
def ratioQ (a b : List Char) : ℚ :=
  if a.length + b.length = 0 then 1
  else mkRat (2 * (matchTotal (isPopularIn b) a b : Int)) (a.length + b.length)

/-- Model of `data_merge.similarity_score`: normalize both names and take the
`SequenceMatcher` ratio of the canonical keys. -/
def similarity_score (name1 name2 : String) : ℚ :=
  ratioQ (normalize_name name1).toList (normalize_name name2).toList

/-! ### Data model (database.py)

Each table is a list of rows in insertion order; the integer primary key of a
fresh row is the current length of the table (monotone, like SQLite rowids).
SQLAlchemy's `.filter_by(...).first()` is `List.find?`. -/

/-- Row of the `leagues` table. -/
structure League where
  id : Nat
  name : String
  display_name : String
  deriving DecidableEq, Repr

/-- Row of the `seasons` table. -/
structure Season where
  id : Nat
  year : Int
  league_id : Nat
  deriving DecidableEq, Repr

/-- Row of the `teams` table.  `understat_id` is Understat's authoritative team
ID for teams created from teams data, and a locally allocated placeholder for
teams created from a bare name. -/
structure Team where
  id : Nat
  understat_id : Int
  name : String
  league_id : Nat
  deriving DecidableEq, Repr

/-- Row of the `players` table (primary source, Understat). -/
structure Player where
  id : Nat
  understat_id : Int
  name : String
  deriving DecidableEq, Repr

/-- Row of the `whoscored_players` table (secondary source).
`understat_player_id` is the nullable link to the primary `players` row. -/
structure WhoScoredPlayer where
  id : Nat
  whoscored_id : Int
  name : String
  understat_player_id : Option Nat
  deriving DecidableEq, Repr

/-! ### Alias registry (data_merge.TEAM_NAME_MAP) -/

/-- The static canonical-name → aliases table, verbatim from data_merge.py,
in dictionary insertion order. -/
def TEAM_NAME_MAP : List (String × List String) :=
  [ ("Manchester United", ["Man United", "Man Utd"]),
    ("Manchester City", ["Man City"]),
    ("Tottenham", ["Tottenham Hotspur", "Spurs"]),
    ("Newcastle United", ["Newcastle"]),
    ("Wolverhampton Wanderers", ["Wolves"]),
    ("Brighton", ["Brighton & Hove Albion", "Brighton and Hove Albion"]),
    ("Nottingham Forest", ["Nott'm Forest"]),
    ("West Ham", ["West Ham United"]),
    ("Sheffield United", ["Sheffield Utd"]),
    ("Atletico Madrid", ["Atlético Madrid", "Atletico"]),
    ("Real Betis", ["Betis"]),
    ("Athletic Club", ["Athletic Bilbao"]),
    ("Rayo Vallecano", ["Rayo"]),
    ("Bayern Munich", ["Bayern München", "FC Bayern"]),
    ("Borussia Dortmund", ["Dortmund", "BVB"]),
    ("Bayer Leverkusen", ["Leverkusen"]),
    ("RB Leipzig", ["Leipzig", "RasenBallsport Leipzig"]),
    ("Borussia M.Gladbach", ["Borussia Monchengladbach", "Gladbach", "Mönchengladbach"]),
    ("Eintracht Frankfurt", ["Frankfurt"]),
    ("AC Milan", ["Milan"]),
    ("Inter", ["Inter Milan", "Internazionale"]),
    ("Napoli", ["SSC Napoli"]),
    ("AS Roma", ["Roma"]),
    ("Paris Saint Germain", ["Paris Saint-Germain", "PSG"]),
    ("Olympique Marseille", ["Marseille", "OM"]),
    ("Olympique Lyonnais", ["Lyon", "OL"]),
    ("AS Monaco", ["Monaco"]) ]

/-! ### Entity resolver (data_merge.find_matching_team / find_matching_player)

The exact-match queries compare `func.lower(row.name)` (SQLite LOWER, which is
ASCII-only) with Python's `name.lower()`; both sides are modelled with
`asciiLower`, which agrees with them on every name compared here. -/

/-- Exact-match step: first stored team whose lower-cased name equals the
lower-cased query. -/
def exactTeamMatch (team_name : String) (store : List Team) : Option Team :=
  store.find? (fun t => asciiLower t.name == asciiLower team_name)

/-- Query a team by one alias name (lower-cased comparison). -/
def teamByName (n : String) (store : List Team) : Option Team :=
  store.find? (fun t => asciiLower t.name == asciiLower n)

/-- Inner loop of the alias step: return the first alias name that is present
in the store. -/
def firstTeamOfNames : List String → List Team → Option Team
  | [], _ => none
  | n :: ns, store =>
    match teamByName n store with
    | some t => some t
    | none => firstTeamOfNames ns store

/-- Alias step of `find_matching_team`: scan `TEAM_NAME_MAP`; for the entries
whose name set contains a normalize-equal spelling of the query, return the
first stored team carrying any of the entry's names. -/
def aliasTeamMatchAux (team_name : String) (store : List Team) :
    List (String × List String) → Option Team
  | [] => none
  | (canonical, aliases) :: rest =>
    let all_names := canonical :: aliases
    if all_names.any (fun n => normalize_name n == normalize_name team_name) then
      match firstTeamOfNames all_names store with
      | some t => some t
      | none => aliasTeamMatchAux team_name store rest
    else aliasTeamMatchAux team_name store rest

/-- Alias step over the full `TEAM_NAME_MAP`. -/
def aliasTeamMatch (team_name : String) (store : List Team) : Option Team :=
  aliasTeamMatchAux team_name store TEAM_NAME_MAP

/-- Fuzzy-match scan shared by both resolvers: fold over the candidates,
replacing the best match whenever `score > best_score and score >= threshold`
(strict improvement, so the first candidate attaining the maximum is kept). -/
def fuzzyScan {α : Type} (score : α → ℚ) (threshold : ℚ) :
    List α → Option α × ℚ → Option α × ℚ
  | [], acc => acc
  | x :: xs, (best, bestScore) =>
    let s := score x
    if bestScore < s ∧ threshold ≤ s then fuzzyScan score threshold xs (some x, s)
    else fuzzyScan score threshold xs (best, bestScore)

/-- Model of `data_merge.find_matching_team` (exact → alias → fuzzy; the
default threshold at the call sites is 0.8). -/
def find_matching_team (team_name : String) (store : List Team) (threshold : ℚ) :
    Option Team :=
  match exactTeamMatch team_name store with
  | some t => some t
  | none =>
    match aliasTeamMatch team_name store with
    | some t => some t
    | none =>
      (fuzzyScan (fun t => similarity_score team_name t.name) threshold store (none, 0)).1

/-- Exact-match step of the player resolver. -/
def exactPlayerMatch (player_name : String) (store : List Player) : Option Player :=
  store.find? (fun p => asciiLower p.name == asciiLower player_name)

/-- Model of `data_merge.find_matching_player` (exact → fuzzy; the default
threshold at the call sites is 0.85). -/
def find_matching_player (player_name : String) (store : List Player) (threshold : ℚ) :
    Option Player :=
  match exactPlayerMatch player_name store with
  | some p => some p
  | none =>
    (fuzzyScan (fun p => similarity_score player_name p.name) threshold store (none, 0)).1

/-! ### Link maintainer (data_merge.link_whoscored_to_understat_players) -/

/-- One step of the link batch: rows whose link is set are not touched; for an
unlinked row, resolve the name against the primary players and set the link on
success. -/
def linkStep (players : List Player) (threshold : ℚ) (w : WhoScoredPlayer) :
    WhoScoredPlayer :=
  if w.understat_player_id = none then
    match find_matching_player w.name players threshold with
    | some p => { w with understat_player_id := some p.id }
    | none => w
  else w

/-- Model of `link_whoscored_to_understat_players`: the updated secondary-player
table together with the number of newly linked rows.  The source first selects
the rows with a NULL link and mutates only those; here that is the guard in
`linkStep`, and the count is the number of unlinked rows whose resolution
succeeded. -/
def link_whoscored_to_understat_players
    (ws : List WhoScoredPlayer) (players : List Player) (threshold : ℚ) :
    List WhoScoredPlayer × Nat :=
  (ws.map (linkStep players threshold),
   ws.countP (fun w =>
     w.understat_player_id == none &&
       (find_matching_player w.name players threshold).isSome))

/-! ### Upsert engine (understat_scraper._get_or_create_*)

Every `_get_or_create_*` in the source is query-first / insert-if-absent on a
session; the common shape is `upsertBy`.  A fresh row is appended and also
returned. -/

/-- Query-first, insert-if-absent.  Returns the updated table and the row the
call yields (the found one, or the freshly inserted one). -/
def upsertBy {ρ : Type} (p : ρ → Bool) (fresh : ρ) (store : List ρ) : List ρ × ρ :=
  match store.find? p with
  | some r => (store, r)
  | none => (store ++ [fresh], fresh)

/-- The `LEAGUES` code → display-name table of understat_scraper.py. -/
def LEAGUES : List (String × String) :=
  [ ("EPL", "English Premier League"),
    ("La_liga", "La Liga"),
    ("Bundesliga", "Bundesliga"),
    ("Serie_A", "Serie A"),
    ("Ligue_1", "Ligue 1"),
    ("RFPL", "Russian Premier League") ]

/-- Model of `_get_or_create_league`: keyed by the league code (`name`). -/
def _get_or_create_league (store : List League) (league_code : String) :
    List League × League :=
  upsertBy (fun l => l.name == league_code)
    ⟨store.length, league_code, ((LEAGUES.lookup league_code).getD league_code)⟩ store

/-- Model of `_get_or_create_season`: keyed by `(year, league_id)`. -/
def _get_or_create_season (store : List Season) (year : Int) (league : League) :
    List Season × Season :=
  upsertBy (fun s => s.year == year && s.league_id == league.id)
    ⟨store.length, year, league.id⟩ store

/-- Model of `_get_or_create_team` (understat_scraper): keyed by the
authoritative `understat_id`; the supplied name is used only when creating. -/
def _get_or_create_team (store : List Team) (understat_id : Int) (name : String)
    (league : League) : List Team × Team :=
  upsertBy (fun t => t.understat_id == understat_id)
    ⟨store.length, understat_id, name, league.id⟩ store

/-- Model of `_get_or_create_player` (understat_scraper): keyed by the
authoritative `understat_id`. -/
def _get_or_create_player (store : List Player) (understat_id : Int) (name : String) :
    List Player × Player :=
  upsertBy (fun p => p.understat_id == understat_id)
    ⟨store.length, understat_id, name⟩ store

/-! ### Placeholder-identifier allocation

understat_scraper._process_players_data (and, with an `"ws_"` prefix,
whoscored_scraper._get_or_create_team) allocates
`placeholder_id = -abs(hash(team_name)) % 1000000` for a team seen only as a
name string.  Python's `hash` of a string is an arbitrary salted integer, so
the allocation is modelled as a function of that hash value.  Python's `%`
with a positive modulus returns a value in `[0, modulus)`, which is exactly
`Int.emod` — note that the result is never negative, despite the source
comment saying the ID is "negative to avoid collision with real IDs". -/

/-- Model of `-abs(hash(team_name)) % 1000000` as a function of the Python hash
value of the (possibly prefixed) team name. -/
def placeholder_id (h : Int) : Int :=
  (-(Int.ofNat h.natAbs)) % 1000000

/-- Model of the placeholder-team branch of `_process_players_data`: if some
team already has the computed placeholder as its `understat_id`, that row is
reused (whatever its name); otherwise a new team row is created. -/
def allocPlaceholderTeam (store : List Team) (h : Int) (name : String)
    (league : League) : List Team × Team :=
  let pid := placeholder_id h
  match store.find? (fun t => t.understat_id == pid) with
  | some t => (store, t)
  | none =>
    let t : Team := ⟨store.length, pid, name, league.id⟩
    (store ++ [t], t)

/-! ### Numeric field conversion

whoscored_scraper._safe_int/_safe_float convert scraped text defensively;
understat_scraper._process_players_data uses bare `int(...)` / `float(...)`.
A missing field is `none`; a conversion that Python would abort with a raised
`ValueError` is modelled as `none` in the result. -/

/-- Value of a digit list (helper; callers check `all isDigit` first). -/
def natOfDigits (ds : List Char) : Nat :=
  ds.foldl (fun n c => n * 10 + (c.toNat - 48)) 0

/-- Model of Python `int(s)` on a string: optional sign followed by at least
one digit (after stripping surrounding whitespace); `none` models a raised
`ValueError`. -/
def pyIntOfString (s : String) : Option Int :=
  let parse : List Char → Option Int := fun ds =>
    if ds ≠ [] ∧ ds.all Char.isDigit then some (Int.ofNat (natOfDigits ds)) else none
  match stripChars s.toList with
  | '-' :: rest => (parse rest).map (fun n => -n)
  | '+' :: rest => parse rest
  | cs => parse cs

/-- Model of Python `float(s)` on a plain decimal literal
(`[sign] digits [. digits]`, at least one digit); `none` models a raised
`ValueError`.  Scientific notation and `inf`/`nan` do not occur in the
scraped fields and are not modelled. -/
def pyFloatOfString (s : String) : Option ℚ :=
  let parsePos : List Char → Option ℚ := fun cs =>
    match cs.splitOn '.' with
    | [ip] => if ip ≠ [] ∧ ip.all Char.isDigit then some (mkRat (natOfDigits ip) 1) else none
    | [ip, fp] =>
      if (ip ≠ [] ∨ fp ≠ []) ∧ ip.all Char.isDigit ∧ fp.all Char.isDigit then
        some (mkRat (natOfDigits ip * 10 ^ fp.length + natOfDigits fp) (10 ^ fp.length))
      else none
    | _ => none
  match stripChars s.toList with
  | '-' :: rest => (parsePos rest).map (fun q => -q)
  | '+' :: rest => parsePos rest
  | cs => parsePos cs

/-- Python `int(float)`: truncation toward zero. -/
def pyTrunc (q : ℚ) : Int :=
  if 0 ≤ q then q.floor else -((-q).floor)

/-- Model of `str.replace(',', '')`. -/
def stripCommas (s : String) : String :=
  String.mk (s.toList.filter (fun c => c ≠ ','))

/-- Model of `str.replace(',', '').replace('%', '')`. -/
def stripCommasPercent (s : String) : String :=
  String.mk (s.toList.filter (fun c => c ≠ ',' ∧ c ≠ '%'))

/-- Model of `whoscored_scraper._safe_int`: `None`, `'-'` and `''` yield the
default; otherwise `int(float(str(value).replace(',', '')))`, with any
conversion error recovered as the default. -/
def _safe_int (value : Option String) (default : Int) : Int :=
  match value with
  | none => default
  | some s =>
    if s = "-" ∨ s = "" then default
    else
      match pyFloatOfString (stripCommas s) with
      | some q => pyTrunc q
      | none => default

/-- Model of `whoscored_scraper._safe_float` (also strips `%`). -/
def _safe_float (value : Option String) (default : ℚ) : ℚ :=
  match value with
  | none => default
  | some s =>
    if s = "-" ∨ s = "" then default
    else
      match pyFloatOfString (stripCommasPercent s) with
      | some q => q
      | none => default

/-- Model of the Understat stats conversion `int(p.get(field, 0))`: a missing
field defaults to `0`, but a present malformed field makes `int` raise
(modelled as `none`), aborting the record. -/
def understatIntField (field : Option String) : Option Int :=
  match field with
  | none => some 0
  | some s => pyIntOfString s

/-! ### Stats merger (export_for_ml.py)

`df.sort_values('tackles', ascending=False).drop_duplicates(
subset=['player_id','season_id'], keep='first')`.  pandas' default sort kind
(quicksort, plus the reversal applied for descending order) guarantees only
that the result is ordered by `tackles` descending with missing values last —
it is NOT stable — so the sort is modelled as a relation: any permutation of
the input that is so ordered is a possible output.  `drop_duplicates`
then keeps the first row of each `(player_id, season_id)` group. -/

/-- A joined stats row as seen by export_for_ml.py.  `tackles` is `none` for
rows whose LEFT JOIN found no WhoScored stats (NaN in the frame); `rowIdx`
records the input position, standing in for the remaining columns. -/
structure StatsRow where
  rowIdx : Nat
  player_id : Nat
  season_id : Nat
  tackles : Option Int
  deriving DecidableEq, Repr

/-- Descending order on the `tackles` column with missing values last
(pandas `ascending=False`, `na_position='last'`). -/
def tackleGe (x y : Option Int) : Bool :=
  match x, y with
  | some a, some b => b ≤ a
  | some _, none => true
  | none, some _ => false
  | none, none => true

/-- The rows `l2` are a possible output of
`sort_values('tackles', ascending=False)` on input `l`. -/
def isSortValuesOutput (l l2 : List StatsRow) : Prop :=
  l.Perm l2 ∧ l2.Pairwise (fun x y => tackleGe x.tackles y.tackles = true)

/-- Two rows fall in the same deduplication group. -/
def sameKey (x y : StatsRow) : Bool :=
  x.player_id == y.player_id && x.season_id == y.season_id

/-- Fuel-driven recursion of `drop_duplicates` (each step discards the later
rows of the head's group, so `l.length` fuel always suffices,
see `dropDupF_fuel`). -/
def dropDupF : Nat → List StatsRow → List StatsRow
  | 0, _ => []
  | _, [] => []
  | fuel + 1, r :: rs => r :: dropDupF fuel (rs.filter (fun x => ¬ sameKey r x))

/-- Model of pandas `drop_duplicates(subset=['player_id','season_id'],
keep='first')`: keep each row whose group key has not occurred earlier. -/
def drop_duplicates (l : List StatsRow) : List StatsRow :=
  dropDupF l.length l

/-- The result of `dropDupF` is independent of the fuel once it dominates the
list length. -/
theorem dropDupF_fuel :
    ∀ (f g : Nat) (l : List StatsRow), l.length ≤ f → l.length ≤ g →
      dropDupF f l = dropDupF g l := by
  intro f
  induction f with
  | zero =>
    intro g l hf _
    have : l = [] := by cases l <;> simp_all
    subst this
    cases g <;> simp [dropDupF]
  | succ f' ih =>
    intro g l hf hg
    cases l with
    | nil => cases g <;> simp [dropDupF]
    | cons r rs =>
      cases g with
      | zero => simp at hg
      | succ g' =>
        simp only [dropDupF, List.cons.injEq, true_and]
        exact ih g' (rs.filter (fun x => ¬ sameKey r x))
          (le_trans (List.length_filter_le _ _) (by simpa using hf))
          (le_trans (List.length_filter_le _ _) (by simpa using hg))

/-! ### Helper lemmas about the upsert shape -/

theorem find?_append_none {ρ : Type} (p : ρ → Bool) (l m : List ρ)
    (h : l.find? p = none) : (l ++ m).find? p = m.find? p := by
  induction l with
  | nil => simp
  | cons x xs ih =>
    rw [List.find?_cons] at h
    cases hx : p x with
    | true => simp [hx] at h
    | false =>
      rw [hx] at h
      simpa [List.find?_cons, hx] using ih h

/-- A second upsert with the same key finds the row the first upsert yielded
and changes nothing. -/
theorem upsertBy_twice {ρ : Type} (p : ρ → Bool) (f1 f2 : ρ) (store : List ρ)
    (h1 : p f1 = true) :
    upsertBy p f2 (upsertBy p f1 store).1 =
      ((upsertBy p f1 store).1, (upsertBy p f1 store).2) := by
  cases hf : store.find? p with
  | some r => simp [upsertBy, hf]
  | none =>
    simp only [upsertBy, hf]
    rw [find?_append_none p store [f1] hf]
    simp [List.find?_cons, h1]

/-- After an upsert whose fresh row matches the key, exactly one stored row
matches the key (provided the store respected the uniqueness invariant). -/
theorem upsertBy_count {ρ : Type} (p : ρ → Bool) (f : ρ) (store : List ρ)
    (h1 : p f = true) (hc : store.countP p ≤ 1) :
    ((upsertBy p f store).1).countP p = 1 := by
  cases hf : store.find? p with
  | none =>
    have hz : store.countP p = 0 :=
      List.countP_eq_zero.mpr (List.find?_eq_none.mp hf)
    simp [upsertBy, hf, List.countP_append, hz, List.countP_cons, h1]
  | some r =>
    have hmem : r ∈ store := List.mem_of_find?_eq_some hf
    have hr : p r = true := List.find?_some hf
    have hpos : 0 < store.countP p := List.countP_pos_iff.mpr ⟨r, hmem, hr⟩
    simp only [upsertBy, hf]
    omega

/-! ### Claims -/

/-- C1: the claim states that placeholder identifiers for distinct team names
are distinct and drawn from a reserved namespace disjoint from authoritative
IDs.  The code computes `-abs(hash(name)) % 1000000`, whose comment says
"negative to avoid collision with real IDs" — but Python's `%` with a positive
modulus is never negative, so every placeholder lies in `[0, 999999]`, inside
the authoritative Understat ID space; moreover distinct hash values that agree
mod 10^6 yield the same placeholder, and the allocation then silently reuses
the other name's row. -/
theorem claim_C1 :
    (∀ h : Int, 0 ≤ placeholder_id h) ∧
    (∀ h : Int, placeholder_id h < 1000000) ∧
    placeholder_id 5 = placeholder_id 1000005 ∧
    placeholder_id 80 = 999920 ∧
    (allocPlaceholderTeam [⟨0, placeholder_id 5, "Alpha", 0⟩] 1000005 "Beta"
        ⟨0, "EPL", "English Premier League"⟩) =
      ([⟨0, placeholder_id 5, "Alpha", 0⟩], ⟨0, placeholder_id 5, "Alpha", 0⟩) := by
  refine ⟨fun h => Int.emod_nonneg _ (by decide), fun h => ?_, by decide, by decide, by decide⟩
  exact Int.emod_lt_of_pos _ (by decide)

/-- C2 counterexample: the claim states that a get-or-create call whose
authoritative ID already exists under a different name surfaces a hard error
and skips the record.  In the code the call just returns the existing row:
here ID 42 is stored as "Alpha", the call supplies "Beta", and the result is
the "Alpha" row with the store unchanged — a silent reuse, no error. -/
theorem claim_C2_counterexample :
    _get_or_create_team [⟨0, 42, "Alpha", 0⟩] 42 "Beta" ⟨0, "EPL", "English Premier League"⟩ =
      ([⟨0, 42, "Alpha", 0⟩], ⟨0, 42, "Alpha", 0⟩) ∧
    _get_or_create_player [⟨0, 99, "John Alpha"⟩] 99 "John Beta" =
      ([⟨0, 99, "John Alpha"⟩], ⟨0, 99, "John Alpha"⟩) ∧
    ("Alpha" : String) ≠ "Beta" := by
  refine ⟨by decide, by decide, by decide⟩

/-- C2 (amended): when the supplied authoritative ID already exists in the
store — whatever name the existing row carries, in particular a different
one — the get-or-create call silently returns the existing row unchanged and
the supplied name is discarded; no error is surfaced and no record is
skipped. -/
theorem claim_C2 :
    (∀ (store : List Team) (uid : Int) (nm : String) (lg : League) (r : Team),
       store.find? (fun t => t.understat_id == uid) = some r → r.name ≠ nm →
       _get_or_create_team store uid nm lg = (store, r)) ∧
    (∀ (store : List Player) (uid : Int) (nm : String) (r : Player),
       store.find? (fun p => p.understat_id == uid) = some r → r.name ≠ nm →
       _get_or_create_player store uid nm = (store, r)) := by
  constructor
  · intro store uid nm lg r hf _
    simp [_get_or_create_team, upsertBy, hf]
  · intro store uid nm r hf _
    simp [_get_or_create_player, upsertBy, hf]

/-- Witness for C2 at a concrete conflicting store. -/
theorem claim_C2_witness :
    [(⟨0, 42, "Alpha", 0⟩ : Team)].find? (fun t => t.understat_id == 42) =
        some ⟨0, 42, "Alpha", 0⟩ ∧
    (⟨0, 42, "Alpha", 0⟩ : Team).name ≠ "Beta" ∧
    _get_or_create_team [⟨0, 42, "Alpha", 0⟩] 42 "Beta"
        ⟨0, "EPL", "English Premier League"⟩ =
      ([⟨0, 42, "Alpha", 0⟩], ⟨0, 42, "Alpha", 0⟩) :=
  ⟨by decide, by decide,
    claim_C2.1 [⟨0, 42, "Alpha", 0⟩] 42 "Beta" ⟨0, "EPL", "English Premier League"⟩
      ⟨0, 42, "Alpha", 0⟩ (by decide) (by decide)⟩

/-- C3: for each entity kind keyed by an authoritative identity (league code;
(year, league) pair; team and player Understat IDs), calling get-or-create
twice with the identical identity leaves the store of the first call
unchanged, returns the row of the first call, and leaves exactly one row for
that identity (assuming the store respected the uniqueness invariant, which
the schema's UNIQUE constraints enforce). -/
theorem claim_C3 :
    (∀ (store : List League) (code : String),
       store.countP (fun l => l.name == code) ≤ 1 →
       _get_or_create_league (_get_or_create_league store code).1 code =
         ((_get_or_create_league store code).1, (_get_or_create_league store code).2) ∧
       ((_get_or_create_league store code).1).countP (fun l => l.name == code) = 1) ∧
    (∀ (store : List Season) (year : Int) (lg : League),
       store.countP (fun s => s.year == year && s.league_id == lg.id) ≤ 1 →
       _get_or_create_season (_get_or_create_season store year lg).1 year lg =
         ((_get_or_create_season store year lg).1, (_get_or_create_season store year lg).2) ∧
       ((_get_or_create_season store year lg).1).countP
           (fun s => s.year == year && s.league_id == lg.id) = 1) ∧
    (∀ (store : List Team) (uid : Int) (nm : String) (lg : League),
       store.countP (fun t => t.understat_id == uid) ≤ 1 →
       _get_or_create_team (_get_or_create_team store uid nm lg).1 uid nm lg =
         ((_get_or_create_team store uid nm lg).1, (_get_or_create_team store uid nm lg).2) ∧
       ((_get_or_create_team store uid nm lg).1).countP (fun t => t.understat_id == uid) = 1) ∧
    (∀ (store : List Player) (uid : Int) (nm : String),
       store.countP (fun p => p.understat_id == uid) ≤ 1 →
       _get_or_create_player (_get_or_create_player store uid nm).1 uid nm =
         ((_get_or_create_player store uid nm).1, (_get_or_create_player store uid nm).2) ∧
       ((_get_or_create_player store uid nm).1).countP (fun p => p.understat_id == uid) = 1) := by
  refine ⟨fun store code hc => ⟨?_, ?_⟩, fun store year lg hc => ⟨?_, ?_⟩,
    fun store uid nm lg hc => ⟨?_, ?_⟩, fun store uid nm hc => ⟨?_, ?_⟩⟩
  · exact upsertBy_twice _ _ _ store (by simp)
  · exact upsertBy_count _ _ store (by simp) hc
  · exact upsertBy_twice _ _ _ store (by simp)
  · exact upsertBy_count _ _ store (by simp) hc
  · exact upsertBy_twice _ _ _ store (by simp)
  · exact upsertBy_count _ _ store (by simp) hc
  · exact upsertBy_twice _ _ _ store (by simp)
  · exact upsertBy_count _ _ store (by simp) hc

/-- Witness for C3: double insertion of team 42 into an empty store. -/
theorem claim_C3_witness :
    _get_or_create_team (_get_or_create_team [] 42 "Arsenal" ⟨0, "EPL", "E"⟩).1 42 "Arsenal"
        ⟨0, "EPL", "E"⟩ =
      ((_get_or_create_team [] 42 "Arsenal" ⟨0, "EPL", "E"⟩).1,
        (_get_or_create_team [] 42 "Arsenal" ⟨0, "EPL", "E"⟩).2) ∧
    ((_get_or_create_team [] 42 "Arsenal" ⟨0, "EPL", "E"⟩).1).countP
        (fun t => t.understat_id == 42) = 1 :=
  claim_C3.2.2.1 [] 42 "Arsenal" ⟨0, "EPL", "E"⟩ (by decide)

/-- C6: the link maintainer is a fixed point on a fully linked table (no row
changes, zero newly linked), and — in every run — a row whose link is already
set passes through unchanged at its position. -/
theorem claim_C6 :
    (∀ (ws : List WhoScoredPlayer) (players : List Player) (thr : ℚ),
       (∀ w ∈ ws, w.understat_player_id ≠ none) →
       link_whoscored_to_understat_players ws players thr = (ws, 0)) ∧
    (∀ (ws : List WhoScoredPlayer) (players : List Player) (thr : ℚ)
       (i : Nat) (w : WhoScoredPlayer),
       ws[i]? = some w → w.understat_player_id ≠ none →
       ((link_whoscored_to_understat_players ws players thr).1)[i]? = some w) := by
  constructor
  · intro ws players thr hall
    unfold link_whoscored_to_understat_players
    simp only [Prod.mk.injEq]
    constructor
    · have : ∀ w ∈ ws, linkStep players thr w = w := by
        intro w hw
        simp [linkStep, hall w hw]
      calc ws.map (linkStep players thr) = ws.map id := List.map_congr_left this
        _ = ws := List.map_id ws
    · refine List.countP_eq_zero.mpr ?_
      intro w hw
      simp [hall w hw]
  · intro ws players thr i w hi hl
    unfold link_whoscored_to_understat_players
    simp only [List.getElem?_map, hi, Option.map_some]
    simp [linkStep, hl]

/-- Witness for C6: a one-row, already-linked table is left untouched. -/
theorem claim_C6_witness :
    link_whoscored_to_understat_players [⟨0, 7, "John Doe", some 3⟩] [] (mkRat 17 20) =
      ([⟨0, 7, "John Doe", some 3⟩], 0) :=
  claim_C6.1 [⟨0, 7, "John Doe", some 3⟩] [] (mkRat 17 20) (by decide)

/-- C9 counterexample: the claim states every malformed metric value is
replaced by 0 and never raises, but the Understat ingestion converts with bare
`int(...)`: on the placeholder text "-" the conversion raises (no value is
produced), it does not substitute 0. -/
theorem claim_C9_counterexample :
    understatIntField (some "-") = none ∧ understatIntField (some "-") ≠ some 0 := by
  refine ⟨by decide, by decide⟩

/-- C9 (amended): the WhoScored conversion helpers substitute the documented
default for `None`/`'-'`/`''` and for any text their float conversion rejects,
and never raise; the Understat path defaults only missing fields to 0 and
raises (produces no value) on malformed present text. -/
theorem claim_C9 :
    (∀ d : Int, _safe_int none d = d) ∧
    (∀ (d : Int) (s : String), pyFloatOfString (stripCommas s) = none →
       _safe_int (some s) d = d) ∧
    (∀ d : ℚ, _safe_float none d = d) ∧
    (∀ (d : ℚ) (s : String), pyFloatOfString (stripCommasPercent s) = none →
       _safe_float (some s) d = d) ∧
    (∀ s : String, pyIntOfString s = none → understatIntField (some s) = none) := by
  refine ⟨fun d => rfl, fun d s hp => ?_, fun d => rfl, fun d s hp => ?_, fun s hp => hp⟩
  · by_cases h : s = "-" ∨ s = "" <;> simp [_safe_int, h, hp]
  · by_cases h : s = "-" ∨ s = "" <;> simp [_safe_float, h, hp]

/-- Witness for C9 on the malformed text "n/a". -/
theorem claim_C9_witness :
    pyFloatOfString (stripCommas "n/a") = none ∧ _safe_int (some "n/a") 0 = 0 :=
  ⟨by decide, claim_C9.2.1 0 "n/a" (by decide)⟩

/-- C8 counterexample: the claim states that "Bayern München" and
"Bayern Munich" normalize to the same canonical key; in fact the normalizer
turns the diacritic into a plain letter but does not touch the differing
suffixes, giving "bayern munchen" vs "bayern munich". -/
theorem claim_C8_counterexample :
    normalize_name "Bayern München" ≠ normalize_name "Bayern Munich" ∧
    normalize_name "Bayern München" = "bayern munchen" ∧
    normalize_name "Bayern Munich" = "bayern munich" := by
  refine ⟨by decide, by decide, by decide⟩

/-- C8 (amended): the two spellings do resolve to the same team, but via the
alias step of the cascade (the alias table registers "Bayern München" under
"Bayern Munich"), not via an exact match of normalized keys: the exact step
fails for "Bayern München" against a store holding "Bayern Munich". -/
theorem claim_C8 :
    exactTeamMatch "Bayern München" [⟨1, 50, "Bayern Munich", 1⟩] = none ∧
    aliasTeamMatch "Bayern München" [⟨1, 50, "Bayern Munich", 1⟩] =
      some ⟨1, 50, "Bayern Munich", 1⟩ ∧
    find_matching_team "Bayern München" [⟨1, 50, "Bayern Munich", 1⟩] (mkRat 4 5) =
      some ⟨1, 50, "Bayern Munich", 1⟩ ∧
    find_matching_team "Bayern Munich" [⟨1, 50, "Bayern Munich", 1⟩] (mkRat 4 5) =
      some ⟨1, 50, "Bayern Munich", 1⟩ := by
  refine ⟨by decide, by decide, by decide, by decide⟩

/-- All NFKD characters of the string are non-ASCII (so the ASCII step drops
the whole name). -/
def allDroppedName (s : String) : Prop :=
  (s.toList.all (fun c => (nfkdChar c).all (fun d => !(d.toNat < 128)))) = true

instance (s : String) : Decidable (allDroppedName s) := by
  unfold allDroppedName; infer_instance

theorem normalize_name_of_allDropped (s : String) (h : allDroppedName s) :
    normalize_name s = "" := by
  unfold allDroppedName at h
  have hfilter : asciiOnly (s.data.flatMap nfkdChar) = [] := by
    refine List.filter_eq_nil_iff.mpr ?_
    intro c hc
    rcases List.mem_flatMap.mp hc with ⟨x, hx, hcx⟩
    have := List.all_eq_true.mp h x hx
    have := List.all_eq_true.mp this c hcx
    simpa using this
  unfold normalize_name
  by_cases he : s = "" <;> simp [he, hfilter, stripChars, List.dropWhile]

/-- C10 counterexample: the names "зенит" and "спартак" are distinct and
non-empty, both normalize to the empty key and score 1.0 — but the claim's
final part is false: the resolver's exact-match step compares lower-cased raw
names, so it does NOT treat the two names as equal (querying "зенит" against a
store holding "спартак" finds no exact match). -/
theorem claim_C10_counterexample :
    normalize_name "зенит" = "" ∧
    normalize_name "спартак" = "" ∧
    similarity_score "зенит" "спартак" = 1 ∧
    ("зенит" : String) ≠ "спартак" ∧
    exactTeamMatch "зенит" [⟨1, 100, "спартак", 1⟩] = none := by
  refine ⟨by decide, by decide, by decide, by decide, by decide⟩

/-- C10 (amended): for every pair of distinct non-empty names all of whose
characters are dropped by the ASCII step, both normalize to the empty key and
their similarity score is 1.0; the resolver consequently conflates the two
names — but through the fuzzy step (score 1.0 ≥ threshold), not through the
exact-match step, which compares lower-cased raw names and fails. -/
theorem claim_C10 :
    (∀ a b : String, a ≠ b → a ≠ "" → b ≠ "" →
       allDroppedName a → allDroppedName b →
       normalize_name a = "" ∧ normalize_name b = "" ∧ similarity_score a b = 1) ∧
    find_matching_team "зенит" [⟨1, 100, "спартак", 1⟩] (mkRat 4 5) =
      some ⟨1, 100, "спартак", 1⟩ := by
  constructor
  · intro a b _ _ _ ha hb
    have hna := normalize_name_of_allDropped a ha
    have hnb := normalize_name_of_allDropped b hb
    refine ⟨hna, hnb, ?_⟩
    simp [similarity_score, hna, hnb, ratioQ]
  · decide

/-- Witness for C10 at the Cyrillic pair. -/
theorem claim_C10_witness :
    allDroppedName "зенит" ∧ allDroppedName "спартак" ∧
    (normalize_name "зенит" = "" ∧ normalize_name "спартак" = "" ∧
      similarity_score "зенит" "спартак" = 1) :=
  ⟨by decide, by decide,
    claim_C10.1 "зенит" "спартак" (by decide) (by decide) (by decide) (by decide) (by decide)⟩

/-! ### Properties of the similarity scorer (towards C7) -/

/-- A fold whose step fixes the state leaves it unchanged. -/
theorem foldl_stay {σ β : Type} (f : σ → β → σ) :
    ∀ (l : List β) (s : σ), (∀ x ∈ l, f s x = s) → l.foldl f s = s := by
  intro l
  induction l with
  | nil => intro s _; rfl
  | cons x xs ih =>
    intro s h
    rw [List.foldl_cons, h x (by simp)]
    exact ih s (fun y hy => h y (by simp [hy]))

theorem cplNP_cons (pop : Char → Bool) (c d : Char) (cs ds : List Char) :
    cplNP pop (c :: cs) (d :: ds) =
      if c = d ∧ pop d = false then cplNP pop cs ds + 1 else 0 := rfl

/-- A run against `v` through non-popular characters is no longer than the
non-popular diagonal run of `v` against itself. -/
theorem cplNP_le_diag_right (pop : Char → Bool) :
    ∀ (v u : List Char), cplNP pop u v ≤ cplNP pop v v := by
  intro v
  induction v with
  | nil => intro u; cases u <;> simp [cplNP]
  | cons d ds ih =>
    intro u
    cases u with
    | nil => simp [cplNP]
    | cons c cs =>
      by_cases h : c = d ∧ pop d = false
      · have hd : d = d ∧ pop d = false := ⟨rfl, h.2⟩
        rw [cplNP_cons, cplNP_cons, if_pos h, if_pos hd]
        exact Nat.succ_le_succ (ih cs)
      · rw [cplNP_cons, if_neg h]
        exact Nat.zero_le _

/-- A run against `v` through non-popular characters is no longer than the
non-popular diagonal run of `u` against itself (matched characters are equal,
hence non-popular on both sides). -/
theorem cplNP_le_diag_left (pop : Char → Bool) :
    ∀ (u v : List Char), cplNP pop u v ≤ cplNP pop u u := by
  intro u
  induction u with
  | nil => intro v; cases v <;> simp [cplNP]
  | cons c cs ih =>
    intro v
    cases v with
    | nil => simp [cplNP]
    | cons d ds =>
      by_cases h : c = d ∧ pop d = false
      · have hc : c = c ∧ pop c = false := ⟨rfl, h.1 ▸ h.2⟩
        rw [cplNP_cons, cplNP_cons, if_pos h, if_pos hc]
        exact Nat.succ_le_succ (ih ds)
      · rw [cplNP_cons, if_neg h]
        exact Nat.zero_le _

/-- An indexed invariant carried along a fold over `List.range n`. -/
theorem foldl_range_inv {σ : Type} (n : Nat) (F : σ → Nat → σ) (P : Nat → σ → Prop)
    (step : ∀ i s, i < n → P i s → P (i + 1) (F s i)) :
    ∀ s, P 0 s → P n ((List.range n).foldl F s) := by
  induction n with
  | zero => intro s h; simpa using h
  | succ m ih =>
    intro s h
    rw [List.range_succ, List.foldl_append, List.foldl_cons, List.foldl_nil]
    exact step m _ (Nat.lt_succ_self m)
      (ih (fun i s hi hp => step i s (Nat.lt_succ_of_lt hi) hp) s h)

theorem cplNP_nil_left (pop : Char → Bool) (v : List Char) : cplNP pop [] v = 0 := by
  cases v <;> rfl

/-- A stretch of the inner scan in which no candidate beats the accumulator
leaves it unchanged. -/
theorem flmInner_stay (pop : Char → Bool) (a b : List Char) (i : Nat)
    (l : List Nat) (s : Nat × Nat × Nat)
    (h : ∀ j ∈ l, cplNP pop (a.drop i) (b.drop j) ≤ s.2.2) :
    l.foldl (flmInner pop a b i) s = s := by
  refine foldl_stay _ _ _ ?_
  intro j hj
  unfold flmInner
  rw [if_neg (Nat.not_lt.mpr (h j hj))]

/-- Row `i` of the DP on two equal lists: columns before `i` cannot beat the
accumulated earlier diagonal runs (`cplNP_le_diag_right`), column `i` updates
diagonally, and later columns cannot beat column `i`
(`cplNP_le_diag_left`); so the accumulator stays diagonal and afterwards
dominates all diagonal runs up to and including `i`. -/
theorem flmStep_self_step (pop : Char → Bool) (xs : List Char) (i : Nat)
    (acc : Nat × Nat × Nat) (hdiag : acc.1 = acc.2.1)
    (hprev : ∀ d, d < i → cplNP pop (xs.drop d) (xs.drop d) ≤ acc.2.2) :
    (flmStep pop xs xs acc i).1 = (flmStep pop xs xs acc i).2.1 ∧
    (∀ d, d < i + 1 →
      cplNP pop (xs.drop d) (xs.drop d) ≤ (flmStep pop xs xs acc i).2.2) := by
  unfold flmStep
  by_cases hin : i < xs.length
  · have hsum : i + (xs.length - i) = xs.length := by omega
    have hsplit := List.range_add i (xs.length - i)
    rw [hsum] at hsplit
    rw [hsplit, List.foldl_append]
    rw [flmInner_stay pop xs xs i (List.range i) acc (fun j hj =>
      le_trans (cplNP_le_diag_right pop (xs.drop j) (xs.drop i))
        (hprev j (List.mem_range.mp hj)))]
    rw [show xs.length - i = (xs.length - i - 1) + 1 from by omega,
      List.range_succ_eq_map, List.map_cons, List.foldl_cons]
    have hhead : flmInner pop xs xs i acc ((i + ·) 0) =
        if acc.2.2 < cplNP pop (xs.drop i) (xs.drop i) then
          (i, i, cplNP pop (xs.drop i) (xs.drop i))
        else acc := by
      simp [flmInner]
    rw [hhead]
    by_cases hcl : acc.2.2 < cplNP pop (xs.drop i) (xs.drop i)
    · rw [if_pos hcl]
      rw [flmInner_stay pop xs xs i _ _ (fun j _ =>
        cplNP_le_diag_left pop (xs.drop i) (xs.drop j))]
      refine ⟨rfl, ?_⟩
      intro d hd
      rcases Nat.lt_succ_iff_lt_or_eq.mp hd with hd | rfl
      · exact le_trans (hprev d hd) (le_of_lt hcl)
      · exact le_refl _
    · rw [if_neg hcl]
      rw [flmInner_stay pop xs xs i _ acc (fun j _ =>
        le_trans (cplNP_le_diag_left pop (xs.drop i) (xs.drop j))
          (Nat.not_lt.mp hcl))]
      refine ⟨hdiag, ?_⟩
      intro d hd
      rcases Nat.lt_succ_iff_lt_or_eq.mp hd with hd | rfl
      · exact hprev d hd
      · exact Nat.not_lt.mp hcl
  · have hdropnil : xs.drop i = [] :=
      List.drop_eq_nil_of_le (Nat.le_of_not_lt hin)
    rw [flmInner_stay pop xs xs i _ acc (fun j _ => by
      rw [hdropnil, cplNP_nil_left]; exact Nat.zero_le _)]
    refine ⟨hdiag, ?_⟩
    intro d hd
    rcases Nat.lt_succ_iff_lt_or_eq.mp hd with hd | rfl
    · exact hprev d hd
    · rw [hdropnil, cplNP_nil_left]; exact Nat.zero_le _

/-- The DP on two equal lists ends on a diagonal block: the only column that
can ever improve row `i` is column `i` itself. -/
theorem flmDP_self_diag (pop : Char → Bool) (xs : List Char) :
    (flmDP pop xs xs).1 = (flmDP pop xs xs).2.1 := by
  unfold flmDP
  have h := foldl_range_inv xs.length (flmStep pop xs xs)
    (fun i acc => acc.1 = acc.2.1 ∧
      ∀ d, d < i → cplNP pop (xs.drop d) (xs.drop d) ≤ acc.2.2)
    (fun i s _ hp => flmStep_self_step pop xs i s hp.1 hp.2)
    (0, 0, 0) ⟨rfl, fun d hd => absurd hd (Nat.not_lt_zero d)⟩
  exact h.1

/-- On two equal lists, whatever (diagonal) block the DP finds, the backward
and forward extensions stretch it to the whole list. -/
theorem flm_self (pop : Char → Bool) (xs : List Char) :
    flm pop xs xs = (0, 0, xs.length) := by
  have hdiag := flmDP_self_diag pop xs
  have hb := flmDP_bounds pop xs xs
  rcases hf : flmDP pop xs xs with ⟨i, j, k⟩
  rw [hf] at hdiag hb
  simp only at hdiag hb
  subst hdiag
  simp only [flm, hf]
  rw [cpl_self, cpl_self, List.length_reverse, List.length_take, List.length_drop]
  have hmin : min i xs.length = i := by omega
  rw [hmin]
  simp only [Prod.mk.injEq]
  refine ⟨by omega, by omega, by omega⟩

theorem matchTotalF_nil (pop : Char → Bool) : ∀ f : Nat, matchTotalF pop f [] [] = 0 := by
  intro f; cases f <;> rfl

/-- The block sum of a list against itself is its full length, for any
popularity table. -/
theorem matchTotal_self (pop : Char → Bool) (xs : List Char) :
    matchTotal pop xs xs = xs.length := by
  unfold matchTotal
  rcases hxs : xs.length with _ | m
  · have hnil : xs = [] := List.length_eq_zero.mp hxs
    subst hnil
    rfl
  · rw [show m + 1 + (m + 1) = (2 * m + 1) + 1 from by omega]
    have hflm := flm_self pop xs
    rw [hxs] at hflm
    simp only [matchTotalF, hflm]
    rw [if_neg (Nat.succ_ne_zero m)]
    have hdrop : xs.drop (0 + (m + 1)) = [] := by
      rw [Nat.zero_add, ← hxs]
      exact List.drop_length xs
    rw [List.take_zero, hdrop]
    have hnil : flm pop ([] : List Char) ([] : List Char) = (0, 0, 0) := rfl
    rw [hnil]
    simp

theorem ratioQ_self (xs : List Char) : ratioQ xs xs = 1 := by
  unfold ratioQ
  by_cases h : xs.length + xs.length = 0
  · rw [if_pos h]
  · rw [if_neg h, matchTotal_self]
    rw [Rat.mkRat_eq_div]
    have hne : ((xs.length + xs.length : Nat) : ℚ) ≠ 0 := by
      exact_mod_cast h
    rw [div_eq_one_iff_eq hne]
    push_cast
    ring

theorem ratioQ_nonneg (a b : List Char) : 0 ≤ ratioQ a b := by
  unfold ratioQ
  by_cases h : a.length + b.length = 0
  · rw [if_pos h]; exact zero_le_one
  · rw [if_neg h, Rat.mkRat_eq_div]
    apply div_nonneg
    · positivity
    · positivity

theorem ratioQ_le_one (a b : List Char) : ratioQ a b ≤ 1 := by
  unfold ratioQ
  by_cases h : a.length + b.length = 0
  · rw [if_pos h]
  · rw [if_neg h, Rat.mkRat_eq_div]
    have hM := matchTotalF_le (isPopularIn b) (a.length + b.length) a b
    have hbound : 2 * matchTotal (isPopularIn b) a b ≤ a.length + b.length := by
      unfold matchTotal
      omega
    have hpos : (0 : ℚ) < ((a.length + b.length : Nat) : ℚ) := by
      have : 0 < a.length + b.length := Nat.pos_of_ne_zero h
      exact_mod_cast this
    rw [div_le_one hpos]
    exact_mod_cast hbound

/-- C7 counterexample: the claim states `similarity(a,b) = similarity(b,a)`
for all names.  `SequenceMatcher.ratio` is direction-dependent: on
("xyaby", "abxy") it scores 4/9 one way and 2/3 the other (the greedy block
matching finds blocks "xy" vs "ab"+"y" depending on which string is first). -/
theorem claim_C7_counterexample :
    similarity_score "xyaby" "abxy" ≠ similarity_score "abxy" "xyaby" ∧
    similarity_score "xyaby" "abxy" = mkRat 4 9 ∧
    similarity_score "abxy" "xyaby" = mkRat 2 3 := by
  refine ⟨by decide, by decide, by decide⟩

/-- C7 (amended): the similarity score always lies in [0,1] and equals 1.0 on
any pair of identical names; symmetry, however, does not hold in general. -/
theorem claim_C7 :
    (∀ a : String, similarity_score a a = 1) ∧
    (∀ a b : String, 0 ≤ similarity_score a b ∧ similarity_score a b ≤ 1) := by
  constructor
  · intro a
    unfold similarity_score
    exact ratioQ_self _
  · intro a b
    exact ⟨ratioQ_nonneg _ _, ratioQ_le_one _ _⟩

/-! ### Characterization of the fuzzy scan (towards C4) -/

/-- Full characterization of the strict-improvement scan: starting from
accumulator `(b, s)` with `0 ≤ s`, either nothing beats the accumulator and it
is returned unchanged, or the scan returns the first candidate attaining the
maximal score, which clears the threshold and beats everything before it. -/
theorem fuzzyScan_spec {α : Type} (score : α → ℚ) (thr : ℚ) :
    ∀ (l : List α) (b : Option α) (s : ℚ), 0 ≤ s →
      (fuzzyScan score thr l (b, s) = (b, s) ∧
        ∀ u ∈ l, score u ≤ s ∨ score u < thr) ∨
      (∃ t pre post, l = pre ++ t :: post ∧
        fuzzyScan score thr l (b, s) = (some t, score t) ∧
        thr ≤ score t ∧ s < score t ∧
        (∀ u ∈ pre, score u < score t) ∧
        (∀ u ∈ post, score u ≤ score t)) := by
  intro l
  induction l with
  | nil =>
    intro b s _
    left
    exact ⟨rfl, by simp⟩
  | cons x xs ih =>
    intro b s hs
    by_cases hc : s < score x ∧ thr ≤ score x
    · have hx : 0 ≤ score x := le_of_lt (lt_of_le_of_lt hs hc.1)
      have hstep : fuzzyScan score thr (x :: xs) (b, s) =
          fuzzyScan score thr xs (some x, score x) := by
        simp [fuzzyScan, hc]
      rcases ih (some x) (score x) hx with ⟨heq, hall⟩ | ⟨t, pre, post, hsplit, heq, h1, h2, h3, h4⟩
      · right
        refine ⟨x, [], xs, by simp, ?_, hc.2, hc.1, by simp, ?_⟩
        · rw [hstep, heq]
        · intro u hu
          rcases hall u hu with h | h
          · exact h
          · exact le_of_lt (lt_of_lt_of_le h hc.2)
      · right
        refine ⟨t, x :: pre, post, by simp [hsplit], ?_, h1, lt_trans hc.1 h2, ?_, h4⟩
        · rw [hstep, heq]
        · intro u hu
          rcases List.mem_cons.mp hu with rfl | hu
          · exact h2
          · exact h3 u hu
    · have hstep : fuzzyScan score thr (x :: xs) (b, s) =
          fuzzyScan score thr xs (b, s) := by
        simp [fuzzyScan, hc]
      have hx : score x ≤ s ∨ score x < thr := by
        rcases not_and_or.mp hc with h | h
        · exact Or.inl (not_lt.mp h)
        · exact Or.inr (not_le.mp h)
      rcases ih b s hs with ⟨heq, hall⟩ | ⟨t, pre, post, hsplit, heq, h1, h2, h3, h4⟩
      · left
        refine ⟨by rw [hstep, heq], ?_⟩
        intro u hu
        rcases List.mem_cons.mp hu with rfl | hu
        · exact hx
        · exact hall u hu
      · right
        refine ⟨t, x :: pre, post, by simp [hsplit], by rw [hstep, heq], h1, h2, ?_, h4⟩
        intro u hu
        rcases List.mem_cons.mp hu with rfl | hu
        · rcases hx with h | h
          · exact lt_of_le_of_lt h h2
          · exact lt_of_lt_of_le h h1
        · exact h3 u hu

/-- C4 counterexample: the claim states that ties at the maximal fuzzy score
are broken by the lowest entity identifier.  With candidates "abcde" (id 7)
and "abcdf" (id 3) and query "abcd" both score 8/9 ≥ 0.8, yet the resolver
returns id 7 — the first candidate in iteration order, not the lowest id. -/
theorem claim_C4_counterexample :
    find_matching_team "abcd" [⟨7, 70, "abcde", 1⟩, ⟨3, 30, "abcdf", 1⟩] (mkRat 4 5) =
      some ⟨7, 70, "abcde", 1⟩ ∧
    similarity_score "abcd" "abcde" = similarity_score "abcd" "abcdf" ∧
    (3 : Nat) < 7 := by
  refine ⟨by decide, by decide, by decide⟩

/-- C4 (amended): when neither the exact step nor the alias step matches, the
resolver returns a candidate only if its score is maximal over the candidate
universe and at least the kind's threshold (0.8 for teams, 0.85 for players);
ties at the maximal score are broken by the FIRST candidate in iteration
order (everything before the returned candidate scores strictly less), not by
the lowest entity identifier; if nothing reaches the threshold the result is
no match (and the resolver creates nothing, returning only existing rows). -/
theorem claim_C4 :
    (∀ (team_name : String) (store : List Team),
       exactTeamMatch team_name store = none →
       aliasTeamMatch team_name store = none →
       (∀ t, find_matching_team team_name store (mkRat 4 5) = some t →
          t ∈ store ∧ mkRat 4 5 ≤ similarity_score team_name t.name ∧
          (∀ u ∈ store,
            similarity_score team_name u.name ≤ similarity_score team_name t.name) ∧
          (∃ pre post, store = pre ++ t :: post ∧
            ∀ u ∈ pre,
              similarity_score team_name u.name < similarity_score team_name t.name)) ∧
       (find_matching_team team_name store (mkRat 4 5) = none →
          ∀ u ∈ store, similarity_score team_name u.name < mkRat 4 5)) ∧
    (∀ (player_name : String) (store : List Player),
       exactPlayerMatch player_name store = none →
       (∀ p, find_matching_player player_name store (mkRat 17 20) = some p →
          p ∈ store ∧ mkRat 17 20 ≤ similarity_score player_name p.name ∧
          (∀ u ∈ store,
            similarity_score player_name u.name ≤ similarity_score player_name p.name) ∧
          (∃ pre post, store = pre ++ p :: post ∧
            ∀ u ∈ pre,
              similarity_score player_name u.name < similarity_score player_name p.name)) ∧
       (find_matching_player player_name store (mkRat 17 20) = none →
          ∀ u ∈ store, similarity_score player_name u.name < mkRat 17 20)) := by
  constructor
  · intro team_name store hex hal
    have hred : find_matching_team team_name store (mkRat 4 5) =
        (fuzzyScan (fun t => similarity_score team_name t.name) (mkRat 4 5)
          store (none, 0)).1 := by
      simp [find_matching_team, hex, hal]
    have hspec := fuzzyScan_spec (fun t => similarity_score team_name t.name)
      (mkRat 4 5) store none 0 (le_refl 0)
    constructor
    · intro t ht
      rw [hred] at ht
      rcases hspec with ⟨heq, _⟩ | ⟨t2, pre, post, hsplit, heq, h1, _, h3, h4⟩
      · rw [heq] at ht; exact absurd ht (by simp)
      · rw [heq] at ht
        have hteq : t2 = t := by simpa using ht
        subst hteq
        refine ⟨by simp [hsplit], h1, ?_, pre, post, hsplit, h3⟩
        intro u hu
        rw [hsplit] at hu
        rcases List.mem_append.mp hu with hu | hu
        · exact le_of_lt (h3 u hu)
        · rcases List.mem_cons.mp hu with rfl | hu
          · exact le_refl _
          · exact h4 u hu
    · intro hn u hu
      rw [hred] at hn
      rcases hspec with ⟨_, hall⟩ | ⟨t2, pre, post, hsplit, heq, _, _, _, _⟩
      · rcases hall u hu with h | h
        · exact lt_of_le_of_lt h (by decide)
        · exact h
      · rw [heq] at hn; exact absurd hn (by simp)
  · intro player_name store hex
    have hred : find_matching_player player_name store (mkRat 17 20) =
        (fuzzyScan (fun p => similarity_score player_name p.name) (mkRat 17 20)
          store (none, 0)).1 := by
      simp [find_matching_player, hex]
    have hspec := fuzzyScan_spec (fun p => similarity_score player_name p.name)
      (mkRat 17 20) store none 0 (le_refl 0)
    constructor
    · intro p hp
      rw [hred] at hp
      rcases hspec with ⟨heq, _⟩ | ⟨p2, pre, post, hsplit, heq, h1, _, h3, h4⟩
      · rw [heq] at hp; exact absurd hp (by simp)
      · rw [heq] at hp
        have hpeq : p2 = p := by simpa using hp
        subst hpeq
        refine ⟨by simp [hsplit], h1, ?_, pre, post, hsplit, h3⟩
        intro u hu
        rw [hsplit] at hu
        rcases List.mem_append.mp hu with hu | hu
        · exact le_of_lt (h3 u hu)
        · rcases List.mem_cons.mp hu with rfl | hu
          · exact le_refl _
          · exact h4 u hu
    · intro hn u hu
      rw [hred] at hn
      rcases hspec with ⟨_, hall⟩ | ⟨p2, pre, post, hsplit, heq, _, _, _, _⟩
      · rcases hall u hu with h | h
        · exact lt_of_le_of_lt h (by decide)
        · exact h
      · rw [heq] at hn; exact absurd hn (by simp)

/-- Witness for C4 on a store where only the fuzzy step can match. -/
theorem claim_C4_witness :
    exactTeamMatch "abcd" [⟨1, 10, "abcde", 1⟩] = none ∧
    aliasTeamMatch "abcd" [⟨1, 10, "abcde", 1⟩] = none ∧
    ((∀ t, find_matching_team "abcd" [⟨1, 10, "abcde", 1⟩] (mkRat 4 5) = some t →
        t ∈ [(⟨1, 10, "abcde", 1⟩ : Team)] ∧
        mkRat 4 5 ≤ similarity_score "abcd" t.name ∧
        (∀ u ∈ [(⟨1, 10, "abcde", 1⟩ : Team)],
          similarity_score "abcd" u.name ≤ similarity_score "abcd" t.name) ∧
        (∃ pre post, [(⟨1, 10, "abcde", 1⟩ : Team)] = pre ++ t :: post ∧
          ∀ u ∈ pre, similarity_score "abcd" u.name < similarity_score "abcd" t.name)) ∧
      (find_matching_team "abcd" [⟨1, 10, "abcde", 1⟩] (mkRat 4 5) = none →
        ∀ u ∈ [(⟨1, 10, "abcde", 1⟩ : Team)], similarity_score "abcd" u.name < mkRat 4 5)) :=
  ⟨by decide, by decide,
    claim_C4.1 "abcd" [⟨1, 10, "abcde", 1⟩] (by decide) (by decide)⟩

/-! ### Properties of the deduplication (towards C5) -/

theorem sameKey_refl (x : StatsRow) : sameKey x x = true := by
  simp [sameKey]

theorem sameKey_symm {x y : StatsRow} (h : sameKey x y = true) : sameKey y x = true := by
  simp [sameKey] at h ⊢
  exact ⟨h.1.symm, h.2.symm⟩

theorem sameKey_trans {x y z : StatsRow} (h1 : sameKey x y = true)
    (h2 : sameKey y z = true) : sameKey x z = true := by
  simp [sameKey] at h1 h2 ⊢
  exact ⟨h1.1.trans h2.1, h1.2.trans h2.2⟩

theorem tackleGe_refl (x : Option Int) : tackleGe x x = true := by
  cases x <;> simp [tackleGe]

theorem dropDupF_subset : ∀ (f : Nat) (l : List StatsRow) (r : StatsRow),
    r ∈ dropDupF f l → r ∈ l := by
  intro f
  induction f with
  | zero => intro l r h; simp [dropDupF] at h
  | succ f' ih =>
    intro l r h
    cases l with
    | nil => simp [dropDupF] at h
    | cons x xs =>
      rcases List.mem_cons.mp h with rfl | h
      · exact List.mem_cons_self _ _
      · exact List.mem_cons_of_mem _
          (List.mem_of_mem_filter (ih _ r h))

/-- On a list sorted descending by tackles, every row kept by the
deduplication dominates its whole group. -/
theorem dropDupF_max : ∀ (f : Nat) (l : List StatsRow),
    l.Pairwise (fun x y => tackleGe x.tackles y.tackles = true) →
    ∀ r ∈ dropDupF f l, ∀ u ∈ l, sameKey u r = true →
      tackleGe r.tackles u.tackles = true := by
  intro f
  induction f with
  | zero => intro l _ r h; simp [dropDupF] at h
  | succ f' ih =>
    intro l hp r hr u hu hk
    cases l with
    | nil => simp at hu
    | cons x xs =>
      rcases List.pairwise_cons.mp hp with ⟨hx, hxs⟩
      rcases List.mem_cons.mp hr with rfl | hr
      · rcases List.mem_cons.mp hu with rfl | hu
        · exact tackleGe_refl _
        · exact hx u hu
      · have hrf : r ∈ xs.filter (fun y => ¬ sameKey x y) := dropDupF_subset _ _ _ hr
        have hxr : sameKey x r = false := by
          have := List.of_mem_filter hrf
          simpa using this
        have hfp : (xs.filter (fun y => ¬ sameKey x y)).Pairwise
            (fun x y => tackleGe x.tackles y.tackles = true) :=
          hxs.sublist (List.filter_sublist xs)
        rcases List.mem_cons.mp hu with rfl | hu
        · exact absurd hk (by simp [hxr])
        · have hux : sameKey x u = false := by
            by_contra hc
            have : sameKey x u = true := by
              cases hxu : sameKey x u
              · exact absurd hxu hc
              · rfl
            exact absurd (sameKey_trans this hk) (by simp [hxr])
          have huf : u ∈ xs.filter (fun y => ¬ sameKey x y) :=
            List.mem_filter.mpr ⟨hu, by simp [hux]⟩
          exact ih _ hfp r hr u huf hk

/-- Every input group is represented in the deduplicated output (the fuel is
sufficient). -/
theorem dropDupF_covers : ∀ (f : Nat) (l : List StatsRow), l.length ≤ f →
    ∀ u ∈ l, ∃ r ∈ dropDupF f l, sameKey u r = true := by
  intro f
  induction f with
  | zero =>
    intro l hf u hu
    have : l = [] := by cases l <;> simp_all
    subst this; simp at hu
  | succ f' ih =>
    intro l hf u hu
    cases l with
    | nil => simp at hu
    | cons x xs =>
      rcases List.mem_cons.mp hu with rfl | hu
      · exact ⟨u, List.mem_cons_self _ _, sameKey_refl _⟩
      · by_cases hxu : sameKey x u = true
        · exact ⟨x, List.mem_cons_self _ _, sameKey_symm hxu⟩
        · have hux : sameKey x u = false := by
            cases h : sameKey x u
            · rfl
            · exact absurd h hxu
          have huf : u ∈ xs.filter (fun y => ¬ sameKey x y) :=
            List.mem_filter.mpr ⟨hu, by simp [hux]⟩
          have hlen : (xs.filter (fun y => ¬ sameKey x y)).length ≤ f' :=
            le_trans (List.length_filter_le _ _) (by simpa using hf)
          rcases ih _ hlen u huf with ⟨r, hr, hk⟩
          exact ⟨r, List.mem_cons_of_mem _ hr, hk⟩

/-- The deduplicated output contains at most one row per group. -/
theorem dropDupF_pairwise : ∀ (f : Nat) (l : List StatsRow),
    (dropDupF f l).Pairwise (fun x y => sameKey x y = false) := by
  intro f
  induction f with
  | zero => intro l; simp [dropDupF]
  | succ f' ih =>
    intro l
    cases l with
    | nil => simp [dropDupF]
    | cons x xs =>
      refine List.pairwise_cons.mpr ⟨?_, ih _⟩
      intro y hy
      have := List.of_mem_filter (dropDupF_subset _ _ _ hy)
      simpa using this

/-- C5 counterexample: the claim states that ties on the richness metric are
broken by the first-encountered row of a stable input ordering.  pandas'
default sort (quicksort; descending order obtained by reversing) is not
stable, so the output order of tied rows is not specified: the sorted order
putting row index 1 first is an admissible execution, and the merger then
keeps row 1, not the first-encountered row 0. -/
theorem claim_C5_counterexample :
    isSortValuesOutput [⟨0, 5, 5, some 10⟩, ⟨1, 5, 5, some 10⟩]
      [⟨1, 5, 5, some 10⟩, ⟨0, 5, 5, some 10⟩] ∧
    drop_duplicates [⟨1, 5, 5, some 10⟩, ⟨0, 5, 5, some 10⟩] = [⟨1, 5, 5, some 10⟩] ∧
    (⟨1, 5, 5, some 10⟩ : StatsRow) ≠ ⟨0, 5, 5, some 10⟩ :=
  ⟨⟨List.Perm.swap _ _ [], by decide⟩, by decide, by decide⟩

/-- C5 (amended): for every admissible output of the descending sort, each row
kept by the merger carries a maximal tackles count within its
(player, season) group (missing counts sort last, hence lose), every group is
represented by exactly one kept row, and for the 12-vs-27 scenario the row
with 27 is kept; the tie-break among equal maximal counts is whatever order
the unstable sort produced, not necessarily the first-encountered input
row. -/
theorem claim_C5 :
    (∀ (l l2 : List StatsRow), isSortValuesOutput l l2 →
       (∀ r ∈ drop_duplicates l2, r ∈ l ∧
          ∀ u ∈ l, sameKey u r = true → tackleGe r.tackles u.tackles = true) ∧
       (∀ u ∈ l, ∃ r ∈ drop_duplicates l2, sameKey u r = true) ∧
       (drop_duplicates l2).Pairwise (fun x y => sameKey x y = false)) ∧
    (∀ l2 : List StatsRow,
       isSortValuesOutput [⟨0, 1, 1, some 12⟩, ⟨1, 1, 1, some 27⟩] l2 →
       drop_duplicates l2 = [⟨1, 1, 1, some 27⟩]) := by
  constructor
  · intro l l2 hs
    rcases hs with ⟨hperm, hsorted⟩
    refine ⟨?_, ?_, dropDupF_pairwise _ _⟩
    · intro r hr
      have hr2 : r ∈ l2 := dropDupF_subset _ _ _ hr
      refine ⟨hperm.mem_iff.mpr hr2, ?_⟩
      intro u hu hk
      exact dropDupF_max _ _ hsorted r hr u (hperm.mem_iff.mp hu) hk
    · intro u hu
      have hu2 : u ∈ l2 := hperm.mem_iff.mp hu
      exact dropDupF_covers _ _ (le_refl _) u hu2
  · intro l2 hs
    rcases hs with ⟨hperm, hsorted⟩
    have hlen : l2.length = 2 := (hperm.length_eq).symm
    rcases l2 with _ | ⟨x, _ | ⟨y, _ | ⟨z, rest⟩⟩⟩
    · simp at hlen
    · simp at hlen
    · have hA : (⟨0, 1, 1, some 12⟩ : StatsRow) ∈ [x, y] :=
        hperm.mem_iff.mp (by simp)
      have hB : (⟨1, 1, 1, some 27⟩ : StatsRow) ∈ [x, y] :=
        hperm.mem_iff.mp (by simp)
      rcases List.mem_pair.mp hB with rfl | rfl
      · rcases List.mem_pair.mp hA with h | rfl
        · exact absurd h (by decide)
        · decide
      · rcases List.mem_pair.mp hA with rfl | h
        · rcases List.pairwise_cons.mp hsorted with ⟨hx, _⟩
          have := hx (⟨1, 1, 1, some 27⟩ : StatsRow) (by simp)
          exact absurd this (by decide)
        · exact absurd h (by decide)
    · simp at hlen

/-- Witness for C5: the only admissible sorted order of the 12/27 scenario. -/
theorem claim_C5_witness :
    isSortValuesOutput [⟨0, 1, 1, some 12⟩, ⟨1, 1, 1, some 27⟩]
      [⟨1, 1, 1, some 27⟩, ⟨0, 1, 1, some 12⟩] ∧
    drop_duplicates [⟨1, 1, 1, some 27⟩, ⟨0, 1, 1, some 12⟩] = [⟨1, 1, 1, some 27⟩] :=
  have hs : isSortValuesOutput [⟨0, 1, 1, some 12⟩, ⟨1, 1, 1, some 27⟩]
      [⟨1, 1, 1, some 27⟩, ⟨0, 1, 1, some 12⟩] :=
    ⟨List.Perm.swap _ _ [], by decide⟩
  ⟨hs, claim_C5.2 _ hs⟩

end SoccerModel
